/-
Verification of the voice-calendar-scheduler FSM core.

Shallow embedding of the Python sources under scheduling/:
  - scheduling/auth.py           (admin bearer-token and WebSocket guards)
  - scheduling/app.py            (admin HTTP endpoints: config update, workflow patch)
  - scheduling/workflows/schema.py and loader.py (workflow data model and JSONL parsing)
  - scheduling/session.py        (transition-target parsing, intent routing, tool loop,
                                  JSON completion-signal extraction and stripping)
  - scheduling/debug_events.py   (per-session debug broadcaster with bounded queues)

Python strings are embedded as `List Char`; Python dicts as insertion-ordered
association lists with first-key lookup and in-place overwrite, matching dict
semantics.  Fallible code returns Option/Except; unbounded loops take explicit
fuel.  Characters that the surrounding tooling treats specially are introduced
through their code points (`lbrace`, `rbrace`, `btick`).
-/

import Mathlib

namespace VoiceScheduler

/-- Python `str` is embedded as a list of characters. -/
abbrev Str := List Char

/-- Build an embedded Python string from a Lean string literal. -/
def chars (s : String) : Str := s.data

/-- The character `{` (written via its code point). -/
def lbrace : Char := Char.ofNat 123

/-- The character `}` (written via its code point). -/
def rbrace : Char := Char.ofNat 125

/-- The backtick character (written via its code point). -/
def btick : Char := Char.ofNat 96

/-- Python dict lookup `d.get(k)`: first binding of the key, if any. -/
def assocGet {α : Type} (d : List (Str × α)) (k : Str) : Option α :=
  match d with
  | [] => none
  | (k', v) :: t => if k' = k then some v else assocGet t k

/-- Python dict assignment `d[k] = v`: overwrite in place preserving insertion
order, appending when the key is new. -/
def assocSet {α : Type} (d : List (Str × α)) (k : Str) (v : α) : List (Str × α) :=
  match d with
  | [] => [(k, v)]
  | (k', v') :: t => if k' = k then (k, v) :: t else (k', v') :: assocSet t k v

/-- Python `":" in target`. -/
def containsChar (c : Char) (s : Str) : Bool :=
  match s with
  | [] => false
  | c' :: t => if c' = c then true else containsChar c t

/-- Python `target.split(sep, 1)[0]`: the part before the first occurrence of
the separator (the whole string when the separator is absent). -/
def beforeChar (c : Char) (s : Str) : Str :=
  match s with
  | [] => []
  | c' :: t => if c' = c then [] else c' :: beforeChar c t

/-- Python `target.split(sep, 1)[1]`: the part after the first occurrence of
the separator (empty when the separator is absent). -/
def afterChar (c : Char) (s : Str) : Str :=
  match s with
  | [] => []
  | c' :: t => if c' = c then t else afterChar c t

-- ── Workflow schema (scheduling/workflows/schema.py) ─────────────────────────

/-- One state in a branching scheduling workflow (`SchedulingStateDef`),
with the pydantic field defaults of schema.py. -/
structure SchedulingStateDef where
  id : Str
  on_enter : Str := []
  step_type : Str := chars "llm"
  system_prompt : Str := []
  tool_names : List Str := []
  narration : Str := []
  transitions : List (Str × Str) := []
  handler : Option Str := none
  max_turns : Option Int := none
  max_turns_target : Option Str := none
  state_fields : List (Str × Str) := []
  tool_args_map : List (Str × Str) := []
  auto_intent : Str := chars "success"
deriving DecidableEq, Repr

/-- A complete branching workflow definition (`SchedulingWorkflowDef`).
The free-form `ui` dict is carried as opaque key/value text. -/
structure SchedulingWorkflowDef where
  id : Str
  trigger_intent : Str := []
  initial_state : Str := []
  exit_phrases : List Str := []
  exit_message : Str := []
  trigger_keywords : List Str := []
  ui : List (Str × Str) := []
  states : List (Str × SchedulingStateDef) := []
deriving DecidableEq, Repr

-- ── Session core (scheduling/session.py) ─────────────────────────────────────

/-- A debug event record as emitted through `_emit_event` (payload restricted
to the textual fields the transition event carries). -/
structure EventRec where
  etype : Str
  data : List (Str × Str)
deriving DecidableEq, Repr

/-- The mutable session fields that transition routing touches:
`_current_step_id`, `_done`, `_step_data`, and the emitted debug events. -/
structure SessionCore where
  current_step_id : Str
  done : Bool
  step_data : List (Str × Str)
  events : List EventRec
deriving DecidableEq, Repr

/-- Method `SchedulingSession._resolve_target`: parse a transition target string into
`(state_id, exit_or_override_message)`.  Mirrors the source branch for branch:
empty target, then `startswith("exit")`, then `":" in target`, else plain id. -/
def resolveTarget (exit_message : Str) (target : Str) : Str × Str :=
  if target = [] then ([], [])
  else if (chars "exit").isPrefixOf target then
    if containsChar ':' target then ([], afterChar ':' target)
    else ([], exit_message)
  else if containsChar ':' target then (beforeChar ':' target, afterChar ':' target)
  else (target, [])

/-- The `transition` debug event emitted on an advance. -/
def transitionEvent (fromId toId intent : Str) : EventRec :=
  { etype := chars "transition"
  , data := [(chars "from", fromId), (chars "to", toId), (chars "intent", intent)] }

/-- The target selection
`state.transitions.get(intent) or state.transitions.get("*")` of
`_resolve_transition`: Python `or` falls through on a `None` or empty-string
left operand. -/
def selectTarget (state : SchedulingStateDef) (intent : Str) : Option Str :=
  match assocGet state.transitions intent with
  | some t => if t ≠ [] then some t else assocGet state.transitions (chars "*")
  | none => assocGet state.transitions (chars "*")

/-- Method `SchedulingSession._resolve_transition`: select the target with
`or`-fallback, stay when no truthy target, set `done` on an exit target,
otherwise advance `current_step_id` and emit a `transition` event.  Returns
the updated core and the new state (`None` on exit). -/
def resolveTransition (wf : SchedulingWorkflowDef) (core : SessionCore)
    (state : SchedulingStateDef) (intent : Str) :
    SessionCore × Option SchedulingStateDef :=
  match selectTarget state intent with
  | none => (core, some state)
  | some t =>
    if t = [] then (core, some state)
    else if (resolveTarget wf.exit_message t).1 = [] then
      ({ core with done := true }, none)
    else
      ({ core with
          current_step_id := (resolveTarget wf.exit_message t).1
        , events := core.events ++
            [transitionEvent state.id (resolveTarget wf.exit_message t).1 intent] }
      , assocGet wf.states (resolveTarget wf.exit_message t).1)

/-- Session construction (`SchedulingSession.__init__`): the current step id is
the workflow's `initial_state`, `done` is false, `step_data` empty. -/
def sessionInit (wf : SchedulingWorkflowDef) : SessionCore :=
  { current_step_id := wf.initial_state, done := false, step_data := [], events := [] }

/-- One routing step of a live session: every mutation of `_current_step_id`
in session.py goes through `_resolve_transition` called on the current state
(`handle_utterance` and `_run_tool_steps` both guard on
`self._current_state()` being present and otherwise leave the step id
untouched). -/
def sessionStep (wf : SchedulingWorkflowDef) (core : SessionCore) (intent : Str) :
    SessionCore :=
  match assocGet wf.states core.current_step_id with
  | none => core
  | some st => (resolveTransition wf core st intent).1

/-- Run a session from `__init__` through a sequence of resolved intents. -/
def sessionRun (wf : SchedulingWorkflowDef) (intents : List Str) : SessionCore :=
  intents.foldl (sessionStep wf) (sessionInit wf)

/-- A transition target never advances anywhere when it is empty or
`exit`-prefixed; otherwise the id it advances to, as `_resolve_target`
computes it. -/
def targetAdvanceOk (wf : SchedulingWorkflowDef) (t : Str) : Bool :=
  if t = [] then true
  else if (chars "exit").isPrefixOf t then true
  else (assocGet wf.states (if containsChar ':' t then beforeChar ':' t else t)).isSome

/-- Closure condition on a workflow: `initial_state` exists and every
transition target that can advance names an existing state. -/
def workflowClosed (wf : SchedulingWorkflowDef) : Bool :=
  (assocGet wf.states wf.initial_state).isSome &&
    wf.states.all (fun p => p.2.transitions.all (fun q => targetAdvanceOk wf q.2))

-- ── Admin authentication guards (scheduling/auth.py) ─────────────────────────

/-- Outcome of the HTTP guard `require_admin_token`: either the dependency
returns (allow) or it raises an HTTPException with a status and headers. -/
inductive AuthOutcome where
  | allow : AuthOutcome
  | httpError (status : Nat) (headers : List (Str × Str)) : AuthOutcome
deriving DecidableEq, Repr

/-- Guard `require_admin_token(credentials)`: with no key configured, allow only in
debug mode (403 otherwise); with a key, reject missing or mismatching bearer
credentials with 401 and a `WWW-Authenticate: Bearer` header. -/
def require_admin_token (admin_api_key : Str) (debug : Bool)
    (credentials : Option Str) : AuthOutcome :=
  if admin_api_key = [] then
    if debug then .allow
    else .httpError 403 []
  else
    match credentials with
    | none => .httpError 401 [(chars "WWW-Authenticate", chars "Bearer")]
    | some c =>
      if c ≠ admin_api_key then .httpError 401 [(chars "WWW-Authenticate", chars "Bearer")]
      else .allow

/-- Outcome of the WebSocket guard `require_admin_ws`: allow, or close the
socket with a code and then raise the given HTTP status. -/
inductive WsAuthOutcome where
  | allow : WsAuthOutcome
  | closed (wsCode : Nat) (httpStatus : Nat) : WsAuthOutcome
deriving DecidableEq, Repr

/-- Guard `require_admin_ws(websocket, token)`: close 4003/403 when no key outside
debug, close 4001/401 on a token mismatch, else allow. -/
def require_admin_ws (admin_api_key : Str) (debug : Bool) (token : Str) :
    WsAuthOutcome :=
  if admin_api_key = [] then
    if debug then .allow
    else .closed 4003 403
  else if token ≠ admin_api_key then .closed 4001 401
  else .allow

-- ── Runtime config endpoint (scheduling/app.py, update_config) ───────────────

/-- A runtime-settings value (the dict in config.py holds booleans, strings and
integers). -/
inductive RVal where
  | b (v : Bool) : RVal
  | s (v : Str) : RVal
  | i (v : Int) : RVal
deriving DecidableEq, Repr

/-- The initial `runtime_settings` dict from scheduling/config.py. -/
def runtime_settings_init : List (Str × RVal) :=
  [ (chars "barge_in_enabled", .b true)
  , (chars "tts_voice", .s (chars "af_heart"))
  , (chars "tts_engine", .s (chars "kokoro"))
  , (chars "vad_energy_threshold", .i 300)
  , (chars "vad_speech_confirm_frames", .i 1)
  , (chars "vad_silence_gap", .i 8)
  , (chars "barge_in_energy_threshold", .i 600)
  , (chars "barge_in_confirm_frames", .i 2) ]

/-- Body of `update_config`: for each body key already present in
`runtime_settings`, overwrite the value; unknown keys are ignored. -/
def updateConfigBody (runtime : List (Str × RVal)) (body : List (Str × RVal)) :
    List (Str × RVal) :=
  body.foldl
    (fun acc kv => if (assocGet acc kv.1).isSome then assocSet acc kv.1 kv.2 else acc)
    runtime

/-- The `POST /api/config` route as registered in `create_app`: the handler has
no auth dependency, so the supplied credentials are never consulted; it applies
the body and answers 200 with the updated settings. -/
def updateConfigEndpoint (credentials : Option Str)
    (runtime : List (Str × RVal)) (body : List (Str × RVal)) :
    Nat × List (Str × RVal) :=
  let _ := credentials
  (200, updateConfigBody runtime body)

-- ── Workflow loader (scheduling/workflows/loader.py) ─────────────────────────

/-- The raw per-state JSON object fed to `SchedulingStateDef(**state_data)`:
absent keys fall back to the pydantic defaults.  (Pydantic type validation is
reflected in the typing of the fields; extra keys are ignored by the default
model config.) -/
structure RawStateData where
  id : Option Str := none
  on_enter : Option Str := none
  step_type : Option Str := none
  system_prompt : Option Str := none
  tool_names : Option (List Str) := none
  narration : Option Str := none
  transitions : Option (List (Str × Str)) := none
  handler : Option (Option Str) := none
  max_turns : Option (Option Int) := none
  max_turns_target : Option (Option Str) := none
  state_fields : Option (List (Str × Str)) := none
  tool_args_map : Option (List (Str × Str)) := none
  auto_intent : Option Str := none
deriving Repr

/-- The raw top-level workflow JSON object fed to
`SchedulingWorkflowDef(**data)` (the `id` key is required by the model). -/
structure RawWorkflow where
  id : Str
  trigger_intent : Option Str := none
  initial_state : Option Str := none
  exit_phrases : Option (List Str) := none
  exit_message : Option Str := none
  trigger_keywords : Option (List Str) := none
  ui : Option (List (Str × Str)) := none
  states : List (Str × RawStateData) := []
deriving Repr

/-- One state of `_parse_workflow`: `state_data.setdefault("id", state_id)`
then `SchedulingStateDef(**state_data)`. -/
def parseState (state_id : Str) (raw : RawStateData) : SchedulingStateDef :=
  { id := raw.id.getD state_id
  , on_enter := raw.on_enter.getD []
  , step_type := raw.step_type.getD (chars "llm")
  , system_prompt := raw.system_prompt.getD []
  , tool_names := raw.tool_names.getD []
  , narration := raw.narration.getD []
  , transitions := raw.transitions.getD []
  , handler := raw.handler.getD none
  , max_turns := raw.max_turns.getD none
  , max_turns_target := raw.max_turns_target.getD none
  , state_fields := raw.state_fields.getD []
  , tool_args_map := raw.tool_args_map.getD []
  , auto_intent := raw.auto_intent.getD (chars "success") }

/-- Loader `_parse_workflow(data)`: parse each nested state and build the workflow.
The source performs no cross-state checks, so parsing is total on well-typed
input: there is no failure path for dangling transition targets, a missing
`initial_state`, or unreachable exits. -/
def parseWorkflow (raw : RawWorkflow) : SchedulingWorkflowDef :=
  { id := raw.id
  , trigger_intent := raw.trigger_intent.getD []
  , initial_state := raw.initial_state.getD []
  , exit_phrases := raw.exit_phrases.getD []
  , exit_message := raw.exit_message.getD []
  , trigger_keywords := raw.trigger_keywords.getD []
  , ui := raw.ui.getD []
  , states := raw.states.map (fun p => (p.1, parseState p.1 p.2)) }

-- ── Spec-modelled workflow validation ────────────────────────────────────────

/-- Modelled from the spec: a transition target counts as an exit target when
it starts with `exit` ("Starts with `exit` → done"). -/
def specIsExitTarget (t : Str) : Bool := (chars "exit").isPrefixOf t

/-- Modelled from the spec: the state id a target names
(`<id>` or `<id>:<msg>`). -/
def specTargetId (t : Str) : Str :=
  if containsChar ':' t then beforeChar ':' t else t

/-- Modelled from the spec: one backward-reachability expansion for the
"no cycles that cannot reach an exit" BFS — a state joins the set when some
transition is an exit target or reaches a state already in the set. -/
def specReachStep (states : List (Str × SchedulingStateDef)) (reach : List Str) :
    List Str :=
  (states.filter (fun p =>
      p.2.transitions.any (fun q =>
        specIsExitTarget q.2 ∨ (q.2 ≠ [] ∧ reach.contains (specTargetId q.2))))).map
    Prod.fst

/-- Iterate the reachability expansion a fixed number of rounds. -/
def specReachIter (states : List (Str × SchedulingStateDef)) :
    Nat → List Str
  | 0 => []
  | n + 1 => specReachStep states (specReachIter states n)

/-- Modelled from the spec (loader.py defines no such check; spec §4.5):
"Validation on load: every non-exit transition target id exists;
`initial_state` exists; no cycles that cannot reach an exit
(reachability-to-exit BFS)." -/
def specWorkflowValid (wf : SchedulingWorkflowDef) : Bool :=
  let initialOk := (assocGet wf.states wf.initial_state).isSome
  let targetsOk := wf.states.all (fun p =>
    p.2.transitions.all (fun q =>
      q.2 = [] ∨ specIsExitTarget q.2 ∨ (assocGet wf.states (specTargetId q.2)).isSome))
  let reach := specReachIter wf.states (wf.states.length + 1)
  let reachOk := wf.states.all (fun p => reach.contains p.1)
  initialOk && targetsOk && reachOk

-- ── Workflow state patch endpoint (scheduling/app.py, update_workflow_state) ─

/-- A single key/value pair of the PATCH body, keyed by the attribute it
names.  `setId` is the `id` key (explicitly excluded by the endpoint);
`unknownKey` is any key that is not an attribute of the state model
(`hasattr` false, silently skipped). -/
inductive StatePatch where
  | on_enter (v : Str)
  | system_prompt (v : Str)
  | narration (v : Str)
  | tool_names (v : List Str)
  | transitions (v : List (Str × Str))
  | handler (v : Option Str)
  | max_turns (v : Option Int)
  | max_turns_target (v : Option Str)
  | state_fields (v : List (Str × Str))
  | tool_args_map (v : List (Str × Str))
  | auto_intent (v : Str)
  | step_type (v : Str)
  | setId (v : Str)
  | unknownKey (key : Str)
deriving Repr

/-- The JSON key a patch entry carries. -/
def StatePatch.key : StatePatch → Str
  | .on_enter _ => chars "on_enter"
  | .system_prompt _ => chars "system_prompt"
  | .narration _ => chars "narration"
  | .tool_names _ => chars "tool_names"
  | .transitions _ => chars "transitions"
  | .handler _ => chars "handler"
  | .max_turns _ => chars "max_turns"
  | .max_turns_target _ => chars "max_turns_target"
  | .state_fields _ => chars "state_fields"
  | .tool_args_map _ => chars "tool_args_map"
  | .auto_intent _ => chars "auto_intent"
  | .step_type _ => chars "step_type"
  | .setId _ => chars "id"
  | .unknownKey k => k

/-- Python `hasattr(state, key)`: true for every model attribute, false for unknown
keys. -/
def StatePatch.isAttr : StatePatch → Bool
  | .unknownKey _ => false
  | _ => true

/-- Python `setattr(state, key, value)` for an accepted patch key. -/
def applyStatePatch (st : SchedulingStateDef) : StatePatch → SchedulingStateDef
  | .on_enter v => { st with on_enter := v }
  | .system_prompt v => { st with system_prompt := v }
  | .narration v => { st with narration := v }
  | .tool_names v => { st with tool_names := v }
  | .transitions v => { st with transitions := v }
  | .handler v => { st with handler := v }
  | .max_turns v => { st with max_turns := v }
  | .max_turns_target v => { st with max_turns_target := v }
  | .state_fields v => { st with state_fields := v }
  | .tool_args_map v => { st with tool_args_map := v }
  | .auto_intent v => { st with auto_intent := v }
  | .step_type v => { st with step_type := v }
  | .setId v => { st with id := v }
  | .unknownKey _ => st

/-- Response of `PATCH /api/workflow/{workflow_id}/states/{state_id}`. -/
inductive PatchResponse where
  | ok (wf : SchedulingWorkflowDef) (st : SchedulingStateDef) (updated : List Str)
  | err (status : Nat)
deriving Repr

/-- Endpoint `update_workflow_state`: look up the workflow and state (404 on either
miss), apply every body entry with `hasattr(state, key) and key != "id"`
(no field allowlist beyond that, and no re-validation or rollback afterwards),
400 when nothing was updated, else 200 with the mutated state.  Mutating the
state in place mutates the registered workflow, so the returned workflow
carries the patched state. -/
def update_workflow_state (wf : SchedulingWorkflowDef) (state_id : Str)
    (body : List StatePatch) : PatchResponse :=
  match assocGet wf.states state_id with
  | none => .err 404
  | some st0 =>
    let step := fun (acc : SchedulingStateDef × List Str) (p : StatePatch) =>
      if p.isAttr ∧ p.key ≠ chars "id" then (applyStatePatch acc.1 p, acc.2 ++ [p.key])
      else acc
    let result := body.foldl step (st0, [])
    if result.2 = [] then .err 400
    else .ok { wf with states := assocSet wf.states state_id result.1 } result.1 result.2

-- ── Tool-step auto-execution (scheduling/session.py, _run_tool_steps) ────────

/-- The awaited outcome of `_execute_tool_step(state)`: a text result, or the
exception it raised (as its string rendering).  The loop is parameterised by
this oracle, since tool behaviour is external to the session code. -/
abbrev ExecOracle := SchedulingStateDef → Except Str Str

/-- One iteration of the `while True` body of `_run_tool_steps` at a tool
state: on success append the result, store it under `step_data[state.id]` and
route with the state's `auto_intent`; on an exception store
`"Error: " ++ str(e)` and route with intent `"error"`.  Returns the routed
core, the next state, and the result appended to `results` (none on
exception). -/
def runToolIter (wf : SchedulingWorkflowDef) (exec : ExecOracle)
    (core : SessionCore) (st : SchedulingStateDef) :
    SessionCore × Option SchedulingStateDef × Option Str :=
  match exec st with
  | .ok r =>
    let core' := { core with step_data := assocSet core.step_data st.id r }
    let routed := resolveTransition wf core' st st.auto_intent
    (routed.1, routed.2, some r)
  | .error e =>
    let core' :=
      { core with step_data := assocSet core.step_data st.id (chars "Error: " ++ e) }
    let routed := resolveTransition wf core' st (chars "error")
    (routed.1, routed.2, none)

/-- Python `"\n".join(results) if results else None`. -/
def joinResults (results : List Str) : Option Str :=
  match results with
  | [] => none
  | r :: rest => some (rest.foldl (fun acc x => acc ++ ['\n'] ++ x) r)

/-- Method `_run_tool_steps`: auto-execute consecutive tool states, advancing via
intent routing, until the current state is missing or not a tool state, or a
transition exits or yields no next state.  The source loop is unbounded
(`while True`); the embedding takes fuel and returns `none` when it runs out. -/
def runToolSteps (wf : SchedulingWorkflowDef) (exec : ExecOracle) :
    Nat → SessionCore → List Str → Option (SessionCore × Option Str)
  | 0, _, _ => none
  | fuel + 1, core, results =>
    match assocGet wf.states core.current_step_id with
    | none => some (core, joinResults results)
    | some st =>
      if st.step_type ≠ chars "tool" then some (core, joinResults results)
      else
        let iter := runToolIter wf exec core st
        let results' := results ++ iter.2.2.toList
        if iter.1.done ∨ iter.2.1 = none then some (iter.1, joinResults results')
        else runToolSteps wf exec fuel iter.1 results'

-- ── Debug broadcaster (scheduling/debug_events.py) ───────────────────────────

/-- A stamped debug event (`DebugEvent` TypedDict); the timestamp oracle is a
natural number. -/
structure DebugEvent where
  etype : Str
  timestamp : Nat
  session_id : Str
  state_id : Str
  data : List (Str × Str)
deriving DecidableEq, Repr

/-- The input of one `emit` call together with the clock value `time.time()`
returns during it. -/
structure EmitInput where
  etype : Str
  state_id : Str
  data : List (Str × Str)
  now : Nat
deriving DecidableEq, Repr

/-- Build the event record that `emit` assembles. -/
def stampEvent (session_id : Str) (i : EmitInput) : DebugEvent :=
  { etype := i.etype, timestamp := i.now, session_id := session_id
  , state_id := i.state_id, data := i.data }

/-- Subscriber queues are created by `subscribe()` with `maxsize=200`. -/
def queueCapacity : Nat := 200

/-- Python `q.put_nowait(event)`: append when below capacity, else fail (QueueFull). -/
def putNowait (cap : Nat) (q : List DebugEvent) (e : DebugEvent) :
    Option (List DebugEvent) :=
  if q.length < cap then some (q ++ [e]) else none

/-- The per-queue push of `emit`: try `put_nowait`; on QueueFull read one event
off (`get_nowait`) and push again; a failure of either fallback call leaves the
queue as it stands. -/
def emitToQueue (cap : Nat) (q : List DebugEvent) (e : DebugEvent) :
    List DebugEvent :=
  match putNowait cap q e with
  | some q' => q'
  | none =>
    match q with
    | [] => q
    | _ :: rest =>
      match putNowait cap rest e with
      | some q' => q'
      | none => rest

/-- Broadcaster state: the unbounded internal event log and the subscriber
queues. -/
structure BroadcasterState where
  event_log : List DebugEvent
  subscribers : List (List DebugEvent)
deriving Repr

/-- Method `DebugBroadcaster.emit`: stamp the event, append it to the internal log,
and push it to every subscriber queue with drop-oldest on full. -/
def emit (session_id : Str) (bs : BroadcasterState) (i : EmitInput) :
    BroadcasterState :=
  let e := stampEvent session_id i
  { event_log := bs.event_log ++ [e]
  , subscribers := bs.subscribers.map (fun q => emitToQueue queueCapacity q e) }

/-- A broadcaster with one fresh subscriber (`subscribe()` on a new
broadcaster), fed a sequence of emits. -/
def emitAll (session_id : Str) (inputs : List EmitInput) : BroadcasterState :=
  inputs.foldl (emit session_id) { event_log := [], subscribers := [[]] }

-- ── JSON completion-signal extraction (scheduling/session.py) ────────────────
--
-- The source matches the pattern  ```(?:json)?\s*\n?({.*?})\s*\n?```  with
-- re.DOTALL (re.search for extraction, re.sub for stripping).  The embedding
-- resolves the pattern's backtracking explicitly:
--   * `\s*\n?` followed by a literal can only succeed with the whitespace run
--     consumed entirely, since every shorter attempt leaves a whitespace
--     character where the literal must match;
--   * `(?:json)?` tried greedily loses no matches, because when the text after
--     the backticks starts with "json" the empty alternative faces a 'j' where
--     `\s*\n?{` requires whitespace or a brace;
--   * the lazy `{.*?}` takes the leftmost closing brace whose suffix matches
--     the close, scanning left to right.
-- `\s` is modelled on the whitespace characters Python's `re` and `str.strip`
-- recognise in the Latin-1 range.

/-- Whitespace as Python's `\s` and `str.strip()` see it (Latin-1 range). -/
def pyWsChar (c : Char) : Bool :=
  c = ' ' || c = '\t' || c = '\n' || c = '\r' ||
  c = Char.ofNat 11 || c = Char.ofNat 12 ||
  c = Char.ofNat 28 || c = Char.ofNat 29 || c = Char.ofNat 30 || c = Char.ofNat 31 ||
  c = Char.ofNat 133 || c = Char.ofNat 160

/-- Drop a leading whitespace run (the maximal `\s*` consumption). -/
def dropWs (s : Str) : Str := s.dropWhile (fun c => pyWsChar c)

/-- Python `str.strip()`: remove leading and trailing whitespace. -/
def pyStrip (s : Str) : Str :=
  ((dropWs s).reverse.dropWhile (fun c => pyWsChar c)).reverse

/-- The close `\s*\n?``` ` of the fence pattern matches here. -/
def closeOk (s : Str) : Bool := (chars "```").isPrefixOf (dropWs s)

/-- Match the open (` ``` ` then `(?:json)?` then `\s*\n?`) of the fence
pattern at this position, returning the remainder positioned at the group's
opening brace. -/
def findBraceStart (l : Str) : Option Str :=
  if (chars "```").isPrefixOf l then
    let a := l.drop 3
    let b := if (chars "json").isPrefixOf a then a.drop 4 else a
    let c := dropWs b
    if c.head? = some lbrace then some c else none
  else none

/-- Lazy scan for the group's closing brace: the first `}` whose suffix
satisfies the close wins; returns the group content (without braces) and the
remainder after the whole match. -/
def scanGroup (acc : Str) : Str → Option (Str × Str)
  | [] => none
  | c :: cs =>
    if c = rbrace ∧ closeOk cs then some (acc.reverse, (dropWs cs).drop 3)
    else scanGroup (c :: acc) cs

/-- Match the whole fence pattern at this position; on success return the
captured group `({.*?})` and the remainder after the match. -/
def matchFenceAt (l : Str) : Option (Str × Str) :=
  match findBraceStart l with
  | none => none
  | some [] => none
  | some (_ :: rest) =>
    (scanGroup [] rest).map (fun pr => (lbrace :: pr.1 ++ [rbrace], pr.2))

/-- Python `re.search` for the fence pattern: leftmost starting position wins. -/
def searchFence : Str → Option Str
  | [] => none
  | c :: cs =>
    match matchFenceAt (c :: cs) with
    | some pr => some pr.1
    | none => searchFence cs

/-- Fuelled body of `re.sub(pattern, "", text)`: replace every
non-overlapping match, resuming after each match's end. -/
def subFenceAux : Nat → Str → Str
  | 0, l => l
  | _ + 1, [] => []
  | fuel + 1, c :: cs =>
    match matchFenceAt (c :: cs) with
    | some pr => subFenceAux fuel pr.2
    | none => c :: subFenceAux fuel cs

/-- Python `re.sub(pattern, "", text)` over the fence pattern (every match consumes
at least one character, so the input length bounds the scan). -/
def subFence (l : Str) : Str := subFenceAux l.length l

-- ── JSON values and `json.loads` (the subset the signals use) ────────────────
--
-- Python's json.loads is modelled on its strict defaults: objects, arrays,
-- strings with the standard escapes, numbers (plus the NaN/Infinity extras),
-- true/false/null, with JSON's four whitespace characters between tokens and
-- rejection of trailing data.  Numbers keep their raw spelling; `\uXXXX`
-- escapes decode code units without combining surrogate pairs (no input
-- considered here uses them).  Duplicate object keys overwrite, as dicts do.

/-- A parsed JSON value. -/
inductive Json where
  | null : Json
  | bool (b : Bool) : Json
  | num (raw : Str) : Json
  | str (s : Str) : Json
  | arr (elems : List Json) : Json
  | obj (members : List (Str × Json)) : Json
deriving Repr

/-- JSON inter-token whitespace (space, tab, newline, carriage return). -/
def jsonWsChar (c : Char) : Bool :=
  c = ' ' || c = '\t' || c = '\n' || c = '\r'

/-- Skip JSON inter-token whitespace. -/
def jsonSkipWs (s : Str) : Str := s.dropWhile (fun c => jsonWsChar c)

/-- Hexadecimal digit value. -/
def hexVal (c : Char) : Option Nat :=
  if 48 ≤ c.toNat ∧ c.toNat ≤ 57 then some (c.toNat - 48)
  else if 97 ≤ c.toNat ∧ c.toNat ≤ 102 then some (c.toNat - 87)
  else if 65 ≤ c.toNat ∧ c.toNat ≤ 70 then some (c.toNat - 55)
  else none

/-- Parse the body of a JSON string after the opening quote, decoding
escapes; unescaped control characters are rejected. -/
def parseStringBody (acc : Str) : Str → Option (Str × Str)
  | [] => none
  | c :: cs =>
    if c = '"' then some (acc.reverse, cs)
    else if c = '\\' then
      match cs with
      | [] => none
      | e :: cs' =>
        if e = '"' then parseStringBody ('"' :: acc) cs'
        else if e = '\\' then parseStringBody ('\\' :: acc) cs'
        else if e = '/' then parseStringBody ('/' :: acc) cs'
        else if e = 'b' then parseStringBody (Char.ofNat 8 :: acc) cs'
        else if e = 'f' then parseStringBody (Char.ofNat 12 :: acc) cs'
        else if e = 'n' then parseStringBody ('\n' :: acc) cs'
        else if e = 'r' then parseStringBody ('\r' :: acc) cs'
        else if e = 't' then parseStringBody ('\t' :: acc) cs'
        else if e = 'u' then
          match cs' with
          | h1 :: h2 :: h3 :: h4 :: cs'' =>
            match hexVal h1, hexVal h2, hexVal h3, hexVal h4 with
            | some a, some b, some c2, some d =>
              parseStringBody (Char.ofNat (a * 4096 + b * 256 + c2 * 16 + d) :: acc) cs''
            | _, _, _, _ => none
          | _ => none
        else none
    else if c.toNat < 32 then none
    else parseStringBody (c :: acc) cs

/-- Take a maximal run of decimal digits. -/
def takeDigits (s : Str) : Str × Str :=
  (s.takeWhile (fun c => c.isDigit), s.dropWhile (fun c => c.isDigit))

/-- Parse a JSON number (or `Infinity`/`-Infinity`), keeping its raw
spelling; the fraction and exponent groups are consumed only when complete. -/
def parseNumber (s : Str) : Option (Str × Str) :=
  let minusSplit : Str × Str :=
    match s with
    | c :: cs => if c = '-' then (['-'], cs) else ([], s)
    | [] => ([], s)
  let minus := minusSplit.1
  let s1 := minusSplit.2
  if (chars "Infinity").isPrefixOf s1 then some (minus ++ chars "Infinity", s1.drop 8)
  else
    match s1 with
    | [] => none
    | c :: cs =>
      let intPart : Option (Str × Str) :=
        if c = '0' then some (['0'], cs)
        else if c.isDigit then
          let digs := takeDigits (c :: cs)
          some (digs.1, digs.2)
        else none
      match intPart with
      | none => none
      | some (ip, rest1) =>
        let fracSplit : Str × Str :=
          match rest1 with
          | '.' :: d :: ds =>
            if d.isDigit then
              let digs := takeDigits (d :: ds)
              ('.' :: digs.1, digs.2)
            else ([], rest1)
          | _ => ([], rest1)
        let rest2 := fracSplit.2
        let expSplit : Str × Str :=
          match rest2 with
          | e :: es =>
            if e = 'e' ∨ e = 'E' then
              match es with
              | sgn :: es' =>
                if sgn = '+' ∨ sgn = '-' then
                  match es' with
                  | d :: ds =>
                    if d.isDigit then
                      let digs := takeDigits (d :: ds)
                      (e :: sgn :: digs.1, digs.2)
                    else ([], rest2)
                  | [] => ([], rest2)
                else if sgn.isDigit then
                  let digs := takeDigits (sgn :: es')
                  (e :: digs.1, digs.2)
                else ([], rest2)
              | [] => ([], rest2)
            else ([], rest2)
          | [] => ([], rest2)
        some (minus ++ ip ++ fracSplit.1 ++ expSplit.1, expSplit.2)

mutual

/-- Parse one JSON value (fuelled; every recursive call follows at least one
consumed character, so `length + 1` fuel never runs out). -/
def parseValue : Nat → Str → Option (Json × Str)
  | 0, _ => none
  | fuel + 1, s0 =>
    let s := jsonSkipWs s0
    match s with
    | [] => none
    | c :: cs =>
      if c = '"' then (parseStringBody [] cs).map (fun pr => (Json.str pr.1, pr.2))
      else if c = lbrace then
        match jsonSkipWs cs with
        | [] => none
        | c2 :: cs2 =>
          if c2 = rbrace then some (Json.obj [], cs2)
          else parseObjLoop fuel [] (jsonSkipWs cs)
      else if c = '[' then
        match jsonSkipWs cs with
        | [] => none
        | c2 :: cs2 =>
          if c2 = ']' then some (Json.arr [], cs2)
          else parseArrLoop fuel [] (jsonSkipWs cs)
      else if (chars "true").isPrefixOf s then some (Json.bool true, s.drop 4)
      else if (chars "false").isPrefixOf s then some (Json.bool false, s.drop 5)
      else if (chars "null").isPrefixOf s then some (Json.null, s.drop 4)
      else if (chars "NaN").isPrefixOf s then some (Json.num (chars "NaN"), s.drop 3)
      else (parseNumber s).map (fun pr => (Json.num pr.1, pr.2))

/-- Parse the members of a JSON object after the opening brace (when not
immediately closed). -/
def parseObjLoop : Nat → List (Str × Json) → Str → Option (Json × Str)
  | 0, _, _ => none
  | fuel + 1, acc, s0 =>
    match jsonSkipWs s0 with
    | [] => none
    | c :: cs =>
      if c = '"' then
        match parseStringBody [] cs with
        | none => none
        | some (key, rest) =>
          match jsonSkipWs rest with
          | ':' :: rest' =>
            match parseValue fuel rest' with
            | none => none
            | some (v, rest'') =>
              let acc' := assocSet acc key v
              match jsonSkipWs rest'' with
              | ',' :: rest3 => parseObjLoop fuel acc' rest3
              | c3 :: rest3 =>
                if c3 = rbrace then some (Json.obj acc', rest3) else none
              | [] => none
          | _ => none
      else none

/-- Parse the elements of a JSON array after the opening bracket (when not
immediately closed). -/
def parseArrLoop : Nat → List Json → Str → Option (Json × Str)
  | 0, _, _ => none
  | fuel + 1, acc, s0 =>
    match parseValue fuel s0 with
    | none => none
    | some (v, rest) =>
      match jsonSkipWs rest with
      | ',' :: rest' => parseArrLoop fuel (acc ++ [v]) rest'
      | c :: rest' => if c = ']' then some (Json.arr (acc ++ [v]), rest') else none
      | [] => none

end

/-- Python `json.loads`: parse one value and reject trailing non-whitespace data. -/
def jsonParse (s : Str) : Option Json :=
  match parseValue (s.length + 1) s with
  | some (v, rest) => if jsonSkipWs rest = [] then some v else none
  | none => none

-- ── Extraction and stripping (session.py) ────────────────────────────────────

/-- Python `text.split("\n")`. -/
def splitLinesAux (acc : Str) : Str → List Str
  | [] => [acc.reverse]
  | c :: cs =>
    if c = '\n' then acc.reverse :: splitLinesAux [] cs
    else splitLinesAux (c :: acc) cs

/-- Split into lines on `\n` (keeping empty segments, as Python does). -/
def splitLines (s : Str) : List Str := splitLinesAux [] s

/-- Python `"\n".join(lines)`. -/
def joinLines : List Str → Str
  | [] => []
  | [l] => l
  | l :: l2 :: rest => l ++ '\n' :: joinLines (l2 :: rest)

/-- The bare-JSON fallback of `_extract_json_signal`: the first line that,
stripped, starts with `{`, ends with `}` and parses. -/
def bareJsonScan : List Str → Option Json
  | [] => none
  | line :: rest =>
    let l := pyStrip line
    if l.head? = some lbrace ∧ l.getLast? = some rbrace then
      match jsonParse l with
      | some v => some v
      | none => bareJsonScan rest
    else bareJsonScan rest

/-- Method `SchedulingSession._extract_json_signal`: try the first fenced match (a
parse failure of its group falls through), then scan lines for bare JSON. -/
def extract_json_signal (text : Str) : Option Json :=
  match searchFence text with
  | some g =>
    match jsonParse g with
    | some v => some v
    | none => bareJsonScan (splitLines text)
  | none => bareJsonScan (splitLines text)

/-- Method `SchedulingSession._extract_text_response`: delete every fenced match,
drop lines that are bare JSON objects, and strip the result. -/
def extract_text_response (text : Str) : Str :=
  let cleaned := subFence text
  let kept := (splitLines cleaned).filter (fun line =>
    let l := pyStrip line
    if l.head? = some lbrace ∧ l.getLast? = some rbrace then
      match jsonParse l with
      | some _ => false
      | none => true
    else true)
  pyStrip (joinLines kept)

/-- A response's fenced JSON block as the workflow prompts request it:
` ```json `, newline, the object text, newline, ` ``` `. -/
def fencedJson (j : Str) : Str := chars "```json" ++ '\n' :: j ++ '\n' :: chars "```"

-- ── Concrete fixtures used by the theorems ───────────────────────────────────

/-- First state of the demo workflow: a named transition and a wildcard. -/
def demoStateA : SchedulingStateDef :=
  { id := chars "a"
  , transitions := [(chars "next", chars "b"), (chars "*", chars "a")] }

/-- A two-state demo workflow that satisfies the closure condition. -/
def wfDemo : SchedulingWorkflowDef :=
  { id := chars "w", initial_state := chars "a", exit_message := chars "Bye!"
  , states :=
      [ (chars "a", demoStateA)
      , (chars "b",
          { id := chars "b"
          , transitions := [(chars "done", chars "exit:All done!")] }) ] }

/-- Workflow `wfDemo` after patching state `a`'s transitions to the dangling target. -/
def wfDemoPatched : SchedulingWorkflowDef :=
  { wfDemo with
      states :=
        [ (chars "a", { id := chars "a", transitions := [(chars "next", chars "ghost")] })
        , (chars "b",
            { id := chars "b"
            , transitions := [(chars "done", chars "exit:All done!")] }) ] }

/-- A workflow whose only state transitions to a nonexistent id. -/
def wfDangling : SchedulingWorkflowDef :=
  { id := chars "w", initial_state := chars "a", exit_message := chars "Bye!"
  , states :=
      [(chars "a", { id := chars "a", transitions := [(chars "next", chars "ghost")] })] }

/-- A raw workflow object with a missing initial state and a dangling
transition target. -/
def rawBadWorkflow : RawWorkflow :=
  { id := chars "w", initial_state := some (chars "missing")
  , exit_message := some (chars "Bye")
  , states := [(chars "a", { transitions := some [(chars "next", chars "ghost")] })] }

/-- First tool state of the tool-chain fixture. -/
def toolState1 : SchedulingStateDef :=
  { id := chars "t1", step_type := chars "tool"
  , transitions := [(chars "success", chars "t2"), (chars "error", chars "recover")] }

/-- Second tool state of the tool-chain fixture. -/
def toolState2 : SchedulingStateDef :=
  { id := chars "t2", step_type := chars "tool"
  , transitions := [(chars "success", chars "talk")] }

/-- A workflow chaining two tool states into an LLM state, with a recovery
state for tool errors. -/
def wfTools : SchedulingWorkflowDef :=
  { id := chars "w", initial_state := chars "t1", exit_message := chars "Bye!"
  , states :=
      [ (chars "t1", toolState1)
      , (chars "t2", toolState2)
      , (chars "talk", { id := chars "talk" })
      , (chars "recover", { id := chars "recover" }) ] }

/-- A tool oracle whose first tool raises and whose others succeed. -/
def oracleFail : ExecOracle := fun st =>
  if st.id = chars "t1" then .error (chars "boom") else .ok (chars "fine")

/-- An LLM response carrying two distinct fenced JSON blocks. -/
def twoBlockResponse : Str :=
  chars "```json\n\x7b\"a\": 1\x7d\n```\nspoken\n```json\n\x7b\"b\": 2\x7d\n```"

/-- A numbered emit input for exercising the broadcaster. -/
def mkEmitInput (i : Nat) : EmitInput :=
  { etype := chars "stt", state_id := chars "a", data := [], now := i }

/-- The last `n` elements of a list (all of it when shorter). -/
def lastN {α : Type} (n : Nat) (l : List α) : List α := l.drop (l.length - n)

/-- The spoken part of a well-formed response. -/
def spokenS : Str := chars "Sounds good!"

/-- The braces content of the completion signal of a well-formed response. -/
def greetedMid : Str := chars "\"intent\": \"greeted\""

-- ── Shared lemmas ────────────────────────────────────────────────────────────

theorem assocGet_mem {α : Type} {d : List (Str × α)} {k : Str} {v : α}
    (h : assocGet d k = some v) : (k, v) ∈ d := by
  induction d with
  | nil => simp [assocGet] at h
  | cons p t ih =>
    rw [assocGet] at h
    split at h
    · rename_i heq
      cases p
      simp_all
    · exact List.mem_cons_of_mem _ (ih h)

theorem assocGet_assocSet {α : Type} (d : List (Str × α)) (k : Str) (v : α) :
    assocGet (assocSet d k v) k = some v := by
  induction d with
  | nil => simp [assocSet, assocGet]
  | cons p t ih =>
    rw [assocSet]
    split
    · simp [assocGet]
    · rename_i hne
      rw [assocGet]
      simp only [if_neg hne]
      exact ih

-- ── Claim theorems ───────────────────────────────────────────────────────────

/-- Claim C1 (code bug): the admin guards themselves behave exactly as the
claim describes — with a key configured, a missing or wrong bearer token gets
HTTP 401 with `WWW-Authenticate: Bearer` and the WebSocket guard closes with
code 4001; with no key, access is allowed only under the debug flag — but the
`POST /api/config` route is registered without any auth dependency, so the
same request with no credentials still updates the runtime settings and
answers 200. -/
theorem claim1_admin_guards_defined_but_config_route_unguarded :
    require_admin_token (chars "secret") false none =
      .httpError 401 [(chars "WWW-Authenticate", chars "Bearer")]
    ∧ require_admin_token (chars "secret") false (some (chars "wrong")) =
      .httpError 401 [(chars "WWW-Authenticate", chars "Bearer")]
    ∧ require_admin_token (chars "secret") false (some (chars "secret")) = .allow
    ∧ require_admin_token [] true none = .allow
    ∧ require_admin_token [] false none = .httpError 403 []
    ∧ require_admin_ws (chars "secret") false (chars "wrong") = .closed 4001 401
    ∧ require_admin_ws [] true (chars "") = .allow
    ∧ require_admin_ws [] false (chars "") = .closed 4003 403
    ∧ updateConfigEndpoint none runtime_settings_init
        [(chars "tts_voice", .s (chars "evil"))] =
      (200, assocSet runtime_settings_init (chars "tts_voice") (.s (chars "evil"))) := by
  refine ⟨rfl, ?_, ?_, rfl, rfl, ?_, rfl, rfl, ?_⟩ <;> decide

/-- Claim C2 (code bug): `_parse_workflow` loads a workflow whose
`initial_state` is absent from `states` and whose only transition targets a
nonexistent id, returning the fully parsed workflow with no error, although
the spec's validation (modelled by `specWorkflowValid`) rejects it. -/
theorem claim2_loader_performs_no_validation :
    parseWorkflow rawBadWorkflow =
      { id := chars "w", initial_state := chars "missing", exit_message := chars "Bye"
      , states :=
          [(chars "a",
            { id := chars "a", transitions := [(chars "next", chars "ghost")] })] }
    ∧ assocGet (parseWorkflow rawBadWorkflow).states
        (parseWorkflow rawBadWorkflow).initial_state = none
    ∧ assocGet (parseWorkflow rawBadWorkflow).states (chars "ghost") = none
    ∧ (assocGet (parseWorkflow rawBadWorkflow).states (chars "a")).map
        SchedulingStateDef.transitions = some [(chars "next", chars "ghost")]
    ∧ specWorkflowValid (parseWorkflow rawBadWorkflow) = false := by
  refine ⟨?_, ?_, ?_, ?_, ?_⟩ <;> decide

/-- Claim C3 (code bug): the runtime state-patch endpoint accepts a patch that
redirects a transition to a nonexistent state, answers 200, and leaves the
workflow changed and invalid — there is no re-validation and no rollback. -/
theorem claim3_patch_not_revalidated_not_rolled_back :
    update_workflow_state wfDemo (chars "a")
        [.transitions [(chars "next", chars "ghost")]] =
      .ok wfDemoPatched
        { id := chars "a", transitions := [(chars "next", chars "ghost")] }
        [chars "transitions"]
    ∧ specWorkflowValid wfDemo = true
    ∧ specWorkflowValid wfDemoPatched = false
    ∧ wfDemoPatched ≠ wfDemo := by
  refine ⟨rfl, ?_, ?_, ?_⟩ <;> decide

/-- Claim C4 counterexample: on a workflow with a dangling transition target,
a single resolved intent moves `current_step_id` to an id absent from
`workflow.states` while `done` is still false — the invariant as stated fails
for unvalidated workflows. -/
theorem claim4_counterexample :
    (sessionRun wfDangling [chars "next"]).current_step_id = chars "ghost"
    ∧ assocGet wfDangling.states (chars "ghost") = none
    ∧ (sessionRun wfDangling [chars "next"]).done = false := by
  refine ⟨?_, ?_, ?_⟩ <;> decide

/-- Claim C5: the transition-target parser satisfies the five claimed shapes,
for every workflow exit message. -/
theorem claim5_target_parser_shapes (em : Str) :
    resolveTarget em (chars "id") = (chars "id", [])
    ∧ resolveTarget em (chars "id:m") = (chars "id", chars "m")
    ∧ resolveTarget em (chars "exit") = ([], em)
    ∧ resolveTarget em (chars "exit:g") = ([], chars "g")
    ∧ resolveTarget em [] = ([], []) := by
  refine ⟨rfl, rfl, rfl, rfl, rfl⟩

theorem resolveTarget_fst_exit (em t : Str)
    (h : (chars "exit").isPrefixOf t = true) : (resolveTarget em t).1 = [] := by
  by_cases h0 : t = []
  · simp [resolveTarget, h0]
  · rw [resolveTarget, if_neg h0, if_pos h]
    split <;> rfl

theorem resolveTarget_fst_plain (em t : Str) (h1 : t ≠ [])
    (h2 : (chars "exit").isPrefixOf t = false) :
    (resolveTarget em t).1 = if containsChar ':' t then beforeChar ':' t else t := by
  rw [resolveTarget, if_neg h1, h2]
  simp only [Bool.false_eq_true, if_false]
  split <;> rfl

theorem targetClosed_of_closed {wf : SchedulingWorkflowDef}
    {sid : Str} {st : SchedulingStateDef} {k t : Str}
    (hclosed : workflowClosed wf = true)
    (hst : (sid, st) ∈ wf.states) (ht : (k, t) ∈ st.transitions) :
    targetAdvanceOk wf t = true := by
  rw [workflowClosed, Bool.and_eq_true, List.all_eq_true] at hclosed
  have h1 := hclosed.2 (sid, st) hst
  rw [List.all_eq_true] at h1
  exact h1 (k, t) ht

theorem selectTarget_mem {st : SchedulingStateDef} {intent t : Str}
    (h : selectTarget st intent = some t) : ∃ k, (k, t) ∈ st.transitions := by
  rw [selectTarget] at h
  cases hvia : assocGet st.transitions intent with
  | none =>
    simp only [hvia] at h
    exact ⟨chars "*", assocGet_mem h⟩
  | some t0 =>
    simp only [hvia, ne_eq] at h
    by_cases h0 : t0 = []
    · rw [if_neg (fun hn => hn h0)] at h
      exact ⟨chars "*", assocGet_mem h⟩
    · rw [if_pos h0] at h
      cases h
      exact ⟨intent, assocGet_mem hvia⟩

theorem sessionStep_inv {wf : SchedulingWorkflowDef}
    (hclosed : workflowClosed wf = true) (core : SessionCore) (intent : Str)
    (h : core.done = true ∨ (assocGet wf.states core.current_step_id).isSome = true) :
    (sessionStep wf core intent).done = true
    ∨ (assocGet wf.states (sessionStep wf core intent).current_step_id).isSome = true := by
  rw [sessionStep]
  cases hg : assocGet wf.states core.current_step_id with
  | none => exact h
  | some st =>
    have hmem : (core.current_step_id, st) ∈ wf.states := assocGet_mem hg
    dsimp only
    rw [resolveTransition.eq_def]
    cases htgt : selectTarget st intent with
    | none =>
      right
      simp [hg]
    | some t =>
      simp only
      by_cases ht0 : t = []
      · rw [if_pos ht0]
        right
        simp [hg]
      · rw [if_neg ht0]
        by_cases hfst : (resolveTarget wf.exit_message t).1 = []
        · rw [if_pos hfst]
          left
          rfl
        · rw [if_neg hfst]
          right
          obtain ⟨k, hk⟩ := selectTarget_mem htgt
          have hok := targetClosed_of_closed hclosed hmem hk
          rw [targetAdvanceOk, if_neg ht0] at hok
          by_cases hexit : (chars "exit").isPrefixOf t = true
          · exact absurd (resolveTarget_fst_exit wf.exit_message t hexit) hfst
          · rw [if_neg hexit] at hok
            have hfst' := resolveTarget_fst_plain wf.exit_message t ht0
              (Bool.not_eq_true _ ▸ hexit)
            simp only [hfst']
            exact hok

theorem sessionFold_inv {wf : SchedulingWorkflowDef}
    (hclosed : workflowClosed wf = true) (intents : List Str) (core : SessionCore)
    (h : core.done = true ∨ (assocGet wf.states core.current_step_id).isSome = true) :
    (intents.foldl (sessionStep wf) core).done = true
    ∨ (assocGet wf.states
        (intents.foldl (sessionStep wf) core).current_step_id).isSome = true := by
  induction intents generalizing core with
  | nil => exact h
  | cons i rest ih =>
    exact ih (sessionStep wf core i) (sessionStep_inv hclosed core i h)

/-- Claim C4 amended: for every workflow satisfying the closure condition
(`initial_state` exists and every non-exit, non-empty transition target
resolves to an existing state), over every sequence of resolved intents the
session's current step id stays a key of `workflow.states` while `done` is
false.  (The unamended claim fails for unvalidated workflows, see the
counterexample.) -/
theorem claim4_state_id_stays_in_states (wf : SchedulingWorkflowDef)
    (intents : List Str) (hclosed : workflowClosed wf = true) :
    (sessionRun wf intents).done = false →
    (assocGet wf.states (sessionRun wf intents).current_step_id).isSome = true := by
  intro hdone
  have hinit : (sessionInit wf).done = true
      ∨ (assocGet wf.states (sessionInit wf).current_step_id).isSome = true := by
    right
    rw [workflowClosed, Bool.and_eq_true] at hclosed
    exact hclosed.1
  have := sessionFold_inv hclosed intents (sessionInit wf) hinit
  rw [sessionRun]
  rcases this with hd | hs
  · rw [sessionRun] at hdone
    rw [hdone] at hd
    exact absurd hd (by decide)
  · exact hs

/-- Claim C4 witness: the amended theorem applied to the closed demo workflow
and one resolved intent. -/
theorem claim4_witness :
    workflowClosed wfDemo = true
    ∧ ((sessionRun wfDemo [chars "next"]).done = false →
        (assocGet wfDemo.states
          (sessionRun wfDemo [chars "next"]).current_step_id).isSome = true) :=
  ⟨by decide, claim4_state_id_stays_in_states wfDemo [chars "next"] (by decide)⟩

/-- Claim C7: with the intent absent from `transitions`, routing falls back to
the `"*"` entry and advances to its (plain state-id) target, emitting the
transition event; with neither entry, the session stays in the current state,
`done` is untouched and no event is emitted. -/
theorem claim7_wildcard_fallback_and_noop (wf : SchedulingWorkflowDef)
    (core : SessionCore) (st : SchedulingStateDef) (intent b : Str)
    (h1 : assocGet st.transitions intent = none) :
    ((assocGet st.transitions (chars "*") = some b ∧ b ≠ []
        ∧ (chars "exit").isPrefixOf b = false ∧ containsChar ':' b = false) →
      resolveTransition wf core st intent =
        ({ core with
            current_step_id := b
          , events := core.events ++ [transitionEvent st.id b intent] }
        , assocGet wf.states b))
    ∧ (assocGet st.transitions (chars "*") = none →
      resolveTransition wf core st intent = (core, some st)) := by
  constructor
  · rintro ⟨hb, hb1, hb2, hb3⟩
    have hsel : selectTarget st intent = some b := by
      rw [selectTarget]
      simp [h1, hb]
    have hfst : (resolveTarget wf.exit_message b).1 = b := by
      rw [resolveTarget_fst_plain _ _ hb1 hb2, hb3]
      simp
    rw [resolveTransition.eq_def]
    simp only [hsel]
    rw [if_neg hb1, if_neg (fun hc => hb1 (hfst ▸ hc)), hfst]
  · intro hstar
    have hsel : selectTarget st intent = none := by
      rw [selectTarget]
      simp [h1, hstar]
    rw [resolveTransition.eq_def]
    simp only [hsel]

/-- Claim C7 witness: the wildcard of the demo workflow's first state catches
the unknown intent `other` and routes back to state `a`; a state with no
matching entries at all leaves the session untouched. -/
theorem claim7_witness :
    assocGet demoStateA.transitions (chars "other") = none
    ∧ resolveTransition wfDemo (sessionInit wfDemo) demoStateA (chars "other") =
      ({ sessionInit wfDemo with
          current_step_id := chars "a"
        , events := [transitionEvent (chars "a") (chars "a") (chars "other")] }
      , assocGet wfDemo.states (chars "a")) :=
  ⟨by decide,
    (claim7_wildcard_fallback_and_noop wfDemo (sessionInit wfDemo) demoStateA
        (chars "other") (chars "a") (by decide)).1
      ⟨by decide, by decide, by decide, by decide⟩⟩

theorem beforeChar_prefix_of_self (c : Char) (t : Str) : beforeChar c t <+: t := by
  induction t with
  | nil => simp [beforeChar]
  | cons a t ih =>
    rw [beforeChar]
    split
    · exact ⟨a :: t, rfl⟩
    · obtain ⟨r, hr⟩ := ih
      exact ⟨r, by rw [List.cons_append, hr]⟩

theorem not_exit_of_beforeColon {t : Str}
    (h : (chars "exit").isPrefixOf t = false) :
    (chars "exit").isPrefixOf (beforeChar ':' t) = false := by
  by_contra hh
  rw [Bool.not_eq_false] at hh
  have h1 := List.isPrefixOf_iff_prefix.mp hh
  have h2 := h1.trans (beforeChar_prefix_of_self ':' t)
  rw [← List.isPrefixOf_iff_prefix] at h2
  rw [h2] at h
  exact absurd h (by decide)

theorem resolveTarget_fst_not_exit (em t : Str) :
    (chars "exit").isPrefixOf (resolveTarget em t).1 = false := by
  by_cases ht : t = []
  · simp [resolveTarget, ht]
    decide
  · by_cases hexit : (chars "exit").isPrefixOf t = true
    · rw [resolveTarget_fst_exit em t hexit]
      decide
    · rw [resolveTarget_fst_plain em t ht (Bool.not_eq_true _ ▸ hexit)]
      split
      · exact not_exit_of_beforeColon (Bool.not_eq_true _ ▸ hexit)
      · exact Bool.not_eq_true _ ▸ hexit

/-- Claim C10: every transition target beginning with `exit` — including
well-formed ids such as `exit_survey` — is parsed as an exit (no state id, the
goodbye message being the part after `:` or else the workflow's
`exit_message`); consequently the parsed state id never begins with `exit`,
and a transition either leaves `current_step_id` unchanged or moves it to an
id that does not begin with `exit` — no `exit`-prefixed state can be advanced
to. -/
theorem claim10_exit_prefixed_targets_exit (em t : Str)
    (wf : SchedulingWorkflowDef) (core : SessionCore)
    (st : SchedulingStateDef) (intent : Str) :
    ((chars "exit").isPrefixOf t = true →
      resolveTarget em t =
        ([], if containsChar ':' t then afterChar ':' t else em))
    ∧ (chars "exit").isPrefixOf (resolveTarget em t).1 = false
    ∧ ((resolveTransition wf core st intent).1.current_step_id =
          core.current_step_id
        ∨ (chars "exit").isPrefixOf
            ((resolveTransition wf core st intent).1.current_step_id) = false) := by
  refine ⟨?_, resolveTarget_fst_not_exit em t, ?_⟩
  · intro h
    have ht : t ≠ [] := by
      intro h0
      subst h0
      exact absurd h (by decide)
    rw [resolveTarget, if_neg ht, if_pos h]
    split <;> rfl
  · rw [resolveTransition.eq_def]
    cases hsel : selectTarget st intent with
    | none => exact Or.inl rfl
    | some t' =>
      simp only
      by_cases ht0 : t' = []
      · rw [if_pos ht0]
        exact Or.inl rfl
      · rw [if_neg ht0]
        by_cases hfst : (resolveTarget wf.exit_message t').1 = []
        · rw [if_pos hfst]
          exact Or.inl rfl
        · rw [if_neg hfst]
          exact Or.inr (resolveTarget_fst_not_exit wf.exit_message t')

/-- Claim C10 witness: the well-formed state id `exit_survey` is treated as an
exit with the workflow's goodbye message. -/
theorem claim10_witness :
    (chars "exit").isPrefixOf (chars "exit_survey") = true
    ∧ resolveTarget (chars "Bye!") (chars "exit_survey") = ([], chars "Bye!") :=
  ⟨by decide,
    (claim10_exit_prefixed_targets_exit (chars "Bye!") (chars "exit_survey")
        wfDemo (sessionInit wfDemo) demoStateA (chars "next")).1 (by decide)⟩

theorem resolveTransition_step_data (wf : SchedulingWorkflowDef)
    (core : SessionCore) (st : SchedulingStateDef) (intent : Str) :
    (resolveTransition wf core st intent).1.step_data = core.step_data := by
  rw [resolveTransition.eq_def]
  cases hsel : selectTarget st intent with
  | none => rfl
  | some t =>
    simp only
    split
    · rfl
    · split <;> rfl

theorem resolveTransition_done_or_none (wf : SchedulingWorkflowDef)
    (core : SessionCore) (st : SchedulingStateDef) (intent : Str) :
    (resolveTransition wf core st intent).1.done = core.done
    ∨ (resolveTransition wf core st intent).2 = none := by
  rw [resolveTransition.eq_def]
  cases hsel : selectTarget st intent with
  | none => exact Or.inl rfl
  | some t =>
    simp only
    split
    · exact Or.inl rfl
    · split
      · exact Or.inr rfl
      · exact Or.inl rfl

theorem resolveTransition_none_dangling (wf : SchedulingWorkflowDef)
    (core : SessionCore) (st : SchedulingStateDef) (intent : Str)
    (h : (resolveTransition wf core st intent).2 = none) :
    (resolveTransition wf core st intent).1.done = true
    ∨ assocGet wf.states
        (resolveTransition wf core st intent).1.current_step_id = none := by
  rw [resolveTransition.eq_def] at h ⊢
  revert h
  cases hsel : selectTarget st intent with
  | none =>
    intro h
    exact absurd h (by simp)
  | some t =>
    simp only
    by_cases ht0 : t = []
    · rw [if_pos ht0]
      intro h
      exact absurd h (by simp)
    · rw [if_neg ht0]
      by_cases hfst : (resolveTarget wf.exit_message t).1 = []
      · rw [if_pos hfst]
        intro _
        exact Or.inl rfl
      · rw [if_neg hfst]
        intro h
        exact Or.inr h

theorem runToolIter_resolve (wf : SchedulingWorkflowDef) (exec : ExecOracle)
    (core : SessionCore) (st : SchedulingStateDef) :
    ∃ core' intent,
      ((runToolIter wf exec core st).1, (runToolIter wf exec core st).2.1) =
        resolveTransition wf core' st intent := by
  cases hexec : exec st with
  | ok r =>
    refine ⟨{ core with step_data := assocSet core.step_data st.id r },
      st.auto_intent, ?_⟩
    simp [runToolIter, hexec]
  | error e =>
    refine ⟨{ core with
        step_data := assocSet core.step_data st.id (chars "Error: " ++ e) },
      chars "error", ?_⟩
    simp [runToolIter, hexec]

theorem runToolSteps_post (wf : SchedulingWorkflowDef) (exec : ExecOracle) :
    ∀ fuel (core : SessionCore) (results : List Str) final res,
      runToolSteps wf exec fuel core results = some (final, res) →
      final.done = true
      ∨ ∀ st', assocGet wf.states final.current_step_id = some st' →
          st'.step_type ≠ chars "tool" := by
  intro fuel
  induction fuel with
  | zero =>
    intro core results final res h
    exact absurd h (by rw [runToolSteps]; simp)
  | succ fuel ih =>
    intro core results final res h
    rw [runToolSteps] at h
    revert h
    cases hg : assocGet wf.states core.current_step_id with
    | none =>
      intro h
      simp only [Option.some.injEq, Prod.mk.injEq] at h
      obtain ⟨hf, -⟩ := h
      subst hf
      right
      intro st' hst'
      rw [hg] at hst'
      exact absurd hst' (by simp)
    | some st =>
      simp only
      by_cases hty : st.step_type ≠ chars "tool"
      · rw [if_pos hty]
        intro h
        simp only [Option.some.injEq, Prod.mk.injEq] at h
        obtain ⟨hf, -⟩ := h
        subst hf
        right
        intro st' hst'
        rw [hg] at hst'
        simp only [Option.some.injEq] at hst'
        subst hst'
        exact hty
      · rw [if_neg hty]
        by_cases hstop : (runToolIter wf exec core st).1.done = true
            ∨ (runToolIter wf exec core st).2.1 = none
        · rw [if_pos hstop]
          intro h
          simp only [Option.some.injEq, Prod.mk.injEq] at h
          obtain ⟨hf, -⟩ := h
          subst hf
          rcases hstop with hdone | hnone
          · exact Or.inl hdone
          · obtain ⟨core', intent, hri⟩ := runToolIter_resolve wf exec core st
            have h1 : (runToolIter wf exec core st).1 =
                (resolveTransition wf core' st intent).1 := congrArg Prod.fst hri
            have h2 : (runToolIter wf exec core st).2.1 =
                (resolveTransition wf core' st intent).2 := congrArg Prod.snd hri
            rw [h1]
            rw [h2] at hnone
            rcases resolveTransition_none_dangling wf core' st intent hnone with
              hd | hmiss
            · exact Or.inl hd
            · right
              intro st' hst'
              rw [hmiss] at hst'
              exact absurd hst' (by simp)
        · rw [if_neg hstop]
          intro h
          exact ih _ _ _ _ h

/-- Claim C8: at a tool state, a tool exception is caught — the result slot
`step_data[state.id]` is set to `"Error: "` followed by the exception text and
routing proceeds with intent `"error"`, the `done` flag changing only if that
routing exits; a success stores the result under the state id and routes with
the state's `auto_intent`, whose schema default is `"success"`; and whenever
the auto-execute loop returns, the session is done or its current state is
missing or not a tool state. -/
theorem claim8_tool_loop_error_handling (wf : SchedulingWorkflowDef)
    (exec : ExecOracle) (core : SessionCore) (st : SchedulingStateDef)
    (_hty : st.step_type = chars "tool") :
    (∀ e, exec st = .error e →
      assocGet (runToolIter wf exec core st).1.step_data st.id =
        some (chars "Error: " ++ e)
      ∧ ((runToolIter wf exec core st).1, (runToolIter wf exec core st).2.1) =
          resolveTransition wf
            { core with
                step_data := assocSet core.step_data st.id (chars "Error: " ++ e) }
            st (chars "error")
      ∧ ((runToolIter wf exec core st).1.done = core.done
          ∨ (runToolIter wf exec core st).2.1 = none))
    ∧ (∀ r, exec st = .ok r →
      assocGet (runToolIter wf exec core st).1.step_data st.id = some r
      ∧ ((runToolIter wf exec core st).1, (runToolIter wf exec core st).2.1) =
          resolveTransition wf
            { core with step_data := assocSet core.step_data st.id r }
            st st.auto_intent)
    ∧ (∀ s : Str, ({ id := s } : SchedulingStateDef).auto_intent = chars "success")
    ∧ (∀ fuel (c : SessionCore) (results : List Str) final res,
        runToolSteps wf exec fuel c results = some (final, res) →
        final.done = true
        ∨ ∀ st', assocGet wf.states final.current_step_id = some st' →
            st'.step_type ≠ chars "tool") := by
  refine ⟨?_, ?_, fun _ => rfl, runToolSteps_post wf exec⟩
  · intro e hexec
    have hiter : (runToolIter wf exec core st).1 =
        (resolveTransition wf
          { core with
              step_data := assocSet core.step_data st.id (chars "Error: " ++ e) }
          st (chars "error")).1 := by
      simp [runToolIter, hexec]
    refine ⟨?_, ?_, ?_⟩
    · rw [hiter, resolveTransition_step_data]
      exact assocGet_assocSet core.step_data st.id (chars "Error: " ++ e)
    · simp [runToolIter, hexec]
    · have h2 : (runToolIter wf exec core st).2.1 =
          (resolveTransition wf
            { core with
                step_data := assocSet core.step_data st.id (chars "Error: " ++ e) }
            st (chars "error")).2 := by
        simp [runToolIter, hexec]
      rw [hiter, h2]
      exact resolveTransition_done_or_none wf _ st (chars "error")
  · intro r hexec
    have hiter : (runToolIter wf exec core st).1 =
        (resolveTransition wf
          { core with step_data := assocSet core.step_data st.id r }
          st st.auto_intent).1 := by
      simp [runToolIter, hexec]
    refine ⟨?_, ?_⟩
    · rw [hiter, resolveTransition_step_data]
      exact assocGet_assocSet core.step_data st.id r
    · simp [runToolIter, hexec]

/-- Claim C8 witness: in the tool-chain fixture, the first tool's exception
`boom` is recorded as `Error: boom` under `t1` without ending the session, and
a succeeding tool records its result under `t2`. -/
theorem claim8_witness :
    toolState1.step_type = chars "tool"
    ∧ oracleFail toolState1 = .error (chars "boom")
    ∧ assocGet
        (runToolIter wfTools oracleFail (sessionInit wfTools) toolState1).1.step_data
        toolState1.id = some (chars "Error: " ++ chars "boom")
    ∧ oracleFail toolState2 = .ok (chars "fine")
    ∧ assocGet
        (runToolIter wfTools oracleFail (sessionInit wfTools) toolState2).1.step_data
        toolState2.id = some (chars "fine") :=
  ⟨by decide, rfl,
    ((claim8_tool_loop_error_handling wfTools oracleFail (sessionInit wfTools)
        toolState1 (by decide)).1 (chars "boom") rfl).1,
    rfl,
    ((claim8_tool_loop_error_handling wfTools oracleFail (sessionInit wfTools)
        toolState2 (by decide)).2.1 (chars "fine") rfl).1⟩

theorem emitQueue_lastN (l : List DebugEvent) (e : DebugEvent) :
    emitToQueue queueCapacity (lastN queueCapacity l) e =
      lastN queueCapacity (l ++ [e]) := by
  by_cases h : l.length < queueCapacity
  · have h0 : l.length - queueCapacity = 0 := by omega
    have h1 : l.length + 1 - queueCapacity = 0 := by omega
    rw [emitToQueue.eq_def, putNowait,
      if_pos (by simp [lastN, List.length_drop, h0]; omega)]
    simp [lastN, h0, h1, List.length_append]
  · have h200 : (lastN queueCapacity l).length = queueCapacity := by
      simp only [lastN, List.length_drop]
      omega
    rw [emitToQueue.eq_def, putNowait, if_neg (by omega)]
    cases hq : lastN queueCapacity l with
    | nil =>
      rw [hq] at h200
      exact absurd h200 (by simp [queueCapacity])
    | cons q0 rest =>
      have hr : rest.length + 1 = queueCapacity := by
        rw [hq] at h200
        simpa using h200
      dsimp only
      rw [putNowait, if_pos (show rest.length < queueCapacity by omega)]
      dsimp only
      have hrest : rest = l.drop (l.length - queueCapacity + 1) := by
        have hd := congrArg (List.drop 1) hq
        rw [lastN, List.drop_drop] at hd
        simpa using hd.symm
      have hle : (l ++ [e]).length - queueCapacity ≤ l.length := by
        simp only [List.length_append, List.length_cons, List.length_nil]
        omega
      have hidx : (l ++ [e]).length - queueCapacity =
          l.length - queueCapacity + 1 := by
        simp only [List.length_append, List.length_cons, List.length_nil]
        omega
      rw [hrest, lastN, List.drop_append_of_le_length hle, hidx]

theorem emitAll_fold (sid : Str) (inputs : List EmitInput) :
    ∀ L : List DebugEvent,
      inputs.foldl (emit sid)
          { event_log := L, subscribers := [lastN queueCapacity L] } =
        { event_log := L ++ inputs.map (stampEvent sid)
        , subscribers := [lastN queueCapacity (L ++ inputs.map (stampEvent sid))] } := by
  induction inputs with
  | nil =>
    intro L
    simp
  | cons i rest ih =>
    intro L
    rw [List.foldl_cons]
    have hemit : emit sid { event_log := L, subscribers := [lastN queueCapacity L] } i =
        { event_log := L ++ [stampEvent sid i]
        , subscribers := [lastN queueCapacity (L ++ [stampEvent sid i])] } := by
      rw [emit]
      simp [emitQueue_lastN]
    rw [hemit, ih (L ++ [stampEvent sid i])]
    simp

/-- Claim C9: feeding a broadcaster with one fresh subscriber more events than
the queue capacity (200), the internal event log retains every stamped event
in order while the subscriber queue holds exactly the last 200, each enqueue
against a full queue having read one oldest event off before pushing. -/
theorem claim9_broadcaster_backpressure (sid : Str) (inputs : List EmitInput)
    (h : queueCapacity < inputs.length) :
    (emitAll sid inputs).event_log = inputs.map (stampEvent sid)
    ∧ (emitAll sid inputs).subscribers =
        [(inputs.map (stampEvent sid)).drop (inputs.length - queueCapacity)]
    ∧ ((inputs.map (stampEvent sid)).drop (inputs.length - queueCapacity)).length =
        queueCapacity := by
  have hinit : ({ event_log := [], subscribers := [[]] } : BroadcasterState) =
      { event_log := [], subscribers := [lastN queueCapacity ([] : List DebugEvent)] } := by
    simp [lastN]
  rw [emitAll, hinit, emitAll_fold sid inputs []]
  refine ⟨by simp, ?_, ?_⟩
  · simp [lastN]
  · simp only [List.length_drop, List.length_map]
    omega

/-- Claim C9 witness: 201 emits against the capacity-200 queue. -/
theorem claim9_witness :
    queueCapacity < ((List.range 201).map mkEmitInput).length
    ∧ (emitAll (chars "s") ((List.range 201).map mkEmitInput)).event_log =
        ((List.range 201).map mkEmitInput).map (stampEvent (chars "s"))
    ∧ (emitAll (chars "s") ((List.range 201).map mkEmitInput)).subscribers =
        [(((List.range 201).map mkEmitInput).map (stampEvent (chars "s"))).drop
          (((List.range 201).map mkEmitInput).length - queueCapacity)] :=
  have hlen : queueCapacity < ((List.range 201).map mkEmitInput).length := by
    simp [queueCapacity]
  ⟨hlen,
    (claim9_broadcaster_backpressure (chars "s") ((List.range 201).map mkEmitInput)
      hlen).1,
    (claim9_broadcaster_backpressure (chars "s") ((List.range 201).map mkEmitInput)
      hlen).2.1⟩

theorem triple_bt_not_prefixOf {c : Char} (cs : Str) (h : c ≠ btick) :
    (chars "```").isPrefixOf (c :: cs) = false := by
  have hc : chars "```" = btick :: btick :: btick :: [] := by decide
  rw [hc]
  simp only [List.isPrefixOf]
  have hb : (btick == c) = false := beq_eq_false_iff_ne.mpr (Ne.symm h)
  simp [hb]

theorem closeOk_cons_ws {c : Char} (x : Str) (h : pyWsChar c = true) :
    closeOk (c :: x) = closeOk x := by
  rw [closeOk, closeOk, dropWs, dropWs, List.dropWhile_cons, if_pos h]

theorem closeOk_false_append (l : Str) (rest : Str)
    (hl : ∀ c ∈ l, c ≠ btick) : closeOk (l ++ rbrace :: rest) = false := by
  induction l with
  | nil =>
    rw [List.nil_append, closeOk, dropWs, List.dropWhile_cons,
      if_neg (by decide)]
    exact triple_bt_not_prefixOf rest (by decide)
  | cons c l ih =>
    rw [List.cons_append]
    by_cases hws : pyWsChar c = true
    · rw [closeOk_cons_ws _ hws]
      exact ih (fun c' hc' => hl c' (List.mem_cons_of_mem _ hc'))
    · rw [closeOk, dropWs, List.dropWhile_cons, if_neg hws]
      exact triple_bt_not_prefixOf _ (hl c (List.mem_cons_self _ _))

theorem closeOk_close (rest : Str) :
    closeOk ('\n' :: btick :: btick :: btick :: rest) = true := by
  rw [closeOk,
    show dropWs ('\n' :: btick :: btick :: btick :: rest) =
      btick :: btick :: btick :: rest from rfl,
    show chars "```" = [btick, btick, btick] from by decide]
  simp [List.isPrefixOf]

theorem scanGroup_through (mid : Str) (hmid : ∀ c ∈ mid, c ≠ btick) :
    ∀ (acc rest : Str),
      scanGroup acc (mid ++ rbrace :: '\n' :: btick :: btick :: btick :: rest) =
        some (acc.reverse ++ mid, rest) := by
  induction mid with
  | nil =>
    intro acc rest
    rw [List.nil_append, scanGroup]
    rw [if_pos ⟨rfl, closeOk_close rest⟩]
    rw [show dropWs ('\n' :: btick :: btick :: btick :: rest) =
      btick :: btick :: btick :: rest from rfl]
    simp
  | cons c mid ih =>
    intro acc rest
    rw [List.cons_append, scanGroup]
    rw [if_neg ?hneg]
    case hneg =>
      rintro ⟨-, hclose⟩
      rw [closeOk_false_append mid _
        (fun c' hc' => hmid c' (List.mem_cons_of_mem _ hc'))] at hclose
      exact absurd hclose (by decide)
    rw [ih (fun c' hc' => hmid c' (List.mem_cons_of_mem _ hc')) (c :: acc) rest]
    simp

theorem matchFenceAt_fence (mid rest : Str) (hmid : ∀ c ∈ mid, c ≠ btick) :
    matchFenceAt
        (btick :: btick :: btick :: 'j' :: 's' :: 'o' :: 'n' :: '\n' ::
          (lbrace :: (mid ++ rbrace :: '\n' :: btick :: btick :: btick :: rest))) =
      some (lbrace :: (mid ++ [rbrace]), rest) := by
  rw [matchFenceAt.eq_def]
  have hfb : findBraceStart
      (btick :: btick :: btick :: 'j' :: 's' :: 'o' :: 'n' :: '\n' ::
        (lbrace :: (mid ++ rbrace :: '\n' :: btick :: btick :: btick :: rest))) =
      some (lbrace :: (mid ++ rbrace :: '\n' :: btick :: btick :: btick :: rest)) := rfl
  rw [hfb]
  dsimp only
  rw [scanGroup_through mid hmid [] rest]
  simp

theorem matchFenceAt_nil : matchFenceAt ([] : Str) = none := rfl

theorem matchFenceAt_none_head {c : Char} (cs : Str) (h : c ≠ btick) :
    matchFenceAt (c :: cs) = none := by
  rw [matchFenceAt.eq_def, findBraceStart, if_neg ?hpre]
  case hpre =>
    rw [triple_bt_not_prefixOf cs h]
    exact Bool.false_ne_true

theorem searchFence_prepend (S : Str) (hS : ∀ c ∈ S, c ≠ btick)
    {tail g rem : Str} (hm : matchFenceAt tail = some (g, rem)) :
    searchFence (S ++ tail) = some g := by
  induction S with
  | nil =>
    rw [List.nil_append]
    cases tail with
    | nil =>
      rw [matchFenceAt_nil] at hm
      exact absurd hm (by simp)
    | cons c cs =>
      rw [searchFence, hm]
  | cons c S ih =>
    rw [List.cons_append, searchFence,
      matchFenceAt_none_head _ (hS c (List.mem_cons_self _ _))]
    exact ih (fun c' hc' => hS c' (List.mem_cons_of_mem _ hc'))

theorem subFenceAux_nil : ∀ fuel, subFenceAux fuel [] = []
  | 0 => rfl
  | _ + 1 => rfl

theorem subFenceAux_prepend (S : Str) (hS : ∀ c ∈ S, c ≠ btick)
    {tail g : Str} (hm : matchFenceAt tail = some (g, [])) :
    ∀ fuel, (S ++ tail).length ≤ fuel → subFenceAux fuel (S ++ tail) = S := by
  induction S with
  | nil =>
    intro fuel hfuel
    rw [List.nil_append] at hfuel ⊢
    cases tail with
    | nil =>
      rw [matchFenceAt_nil] at hm
      exact absurd hm (by simp)
    | cons c cs =>
      cases fuel with
      | zero => exact absurd hfuel (by simp)
      | succ f =>
        rw [subFenceAux, hm]
        exact subFenceAux_nil f
  | cons c S ih =>
    intro fuel hfuel
    cases fuel with
    | zero => exact absurd hfuel (by simp)
    | succ f =>
      rw [List.cons_append, subFenceAux,
        matchFenceAt_none_head _ (hS c (List.mem_cons_self _ _))]
      rw [ih (fun c' hc' => hS c' (List.mem_cons_of_mem _ hc')) f
        (by simpa using Nat.succ_le_succ_iff.mp (by simpa using hfuel))]

theorem fencedJson_norm (mid rest : Str) :
    fencedJson (lbrace :: (mid ++ [rbrace])) ++ rest =
      btick :: btick :: btick :: 'j' :: 's' :: 'o' :: 'n' :: '\n' ::
        (lbrace :: (mid ++ rbrace :: '\n' :: btick :: btick :: btick :: rest)) := by
  rw [fencedJson,
    show chars "```json" = [btick, btick, btick, 'j', 's', 'o', 'n'] from by decide,
    show chars "```" = [btick, btick, btick] from by decide]
  simp [List.append_assoc]

theorem fencedJson_norm_nil (mid : Str) :
    fencedJson (lbrace :: (mid ++ [rbrace])) =
      btick :: btick :: btick :: 'j' :: 's' :: 'o' :: 'n' :: '\n' ::
        (lbrace :: (mid ++ rbrace :: '\n' :: btick :: btick :: btick :: ([] : Str))) := by
  have h := fencedJson_norm mid []
  rw [List.append_nil] at h
  exact h

theorem splitLinesAux_ne_nil (s : Str) : ∀ acc, splitLinesAux acc s ≠ [] := by
  induction s with
  | nil =>
    intro acc
    simp [splitLinesAux]
  | cons c cs ih =>
    intro acc
    rw [splitLinesAux]
    split
    · simp
    · exact ih (c :: acc)

theorem joinLines_splitLinesAux (s : Str) :
    ∀ acc, joinLines (splitLinesAux acc s) = acc.reverse ++ s := by
  induction s with
  | nil =>
    intro acc
    simp [splitLinesAux, joinLines]
  | cons c cs ih =>
    intro acc
    rw [splitLinesAux]
    by_cases hc : c = '\n'
    · rw [if_pos hc]
      cases hL : splitLinesAux ([] : Str) cs with
      | nil => exact absurd hL (splitLinesAux_ne_nil cs [])
      | cons l2 L2 =>
        have hj : joinLines (acc.reverse :: l2 :: L2) =
            acc.reverse ++ '\n' :: joinLines (l2 :: L2) := rfl
        rw [hj, ← hL, ih []]
        simp [hc]
    · rw [if_neg hc, ih (c :: acc)]
      simp

theorem joinLines_splitLines (s : Str) : joinLines (splitLines s) = s := by
  have h := joinLines_splitLinesAux s []
  simpa [splitLines] using h

/-- Claim C6 amended: for a response `S + fenced_json(J) + T` whose spoken
part `S` contains no backtick and no line that (stripped) opens with `{`, and
whose fenced object text parses as a JSON object, extraction returns that
object — for every suffix `T`, so the *first* fenced block wins and anything
after it (further fenced blocks included) is ignored — and stripping the
response without a suffix returns `S` trimmed of leading and trailing
whitespace. -/
theorem claim6_first_fence_extraction (S mid rest : Str)
    (o : List (Str × Json))
    (hS1 : ∀ c ∈ S, c ≠ btick)
    (hS2 : ∀ line ∈ splitLines S, (pyStrip line).head? ≠ some lbrace)
    (hmid : ∀ c ∈ mid, c ≠ btick)
    (hparse : jsonParse (lbrace :: (mid ++ [rbrace])) = some (Json.obj o)) :
    extract_json_signal (S ++ fencedJson (lbrace :: (mid ++ [rbrace])) ++ rest) =
      some (Json.obj o)
    ∧ extract_text_response (S ++ fencedJson (lbrace :: (mid ++ [rbrace]))) =
      pyStrip S := by
  constructor
  · have hsearch : searchFence
        (S ++ (fencedJson (lbrace :: (mid ++ [rbrace])) ++ rest)) =
        some (lbrace :: (mid ++ [rbrace])) := by
      apply searchFence_prepend S hS1
      rw [fencedJson_norm]
      exact matchFenceAt_fence mid rest hmid
    rw [List.append_assoc]
    simp only [extract_json_signal, hsearch, hparse]
  · have hm0 : matchFenceAt (fencedJson (lbrace :: (mid ++ [rbrace]))) =
        some (lbrace :: (mid ++ [rbrace]), []) := by
      rw [fencedJson_norm_nil]
      exact matchFenceAt_fence mid [] hmid
    have hsub : subFence (S ++ fencedJson (lbrace :: (mid ++ [rbrace]))) = S := by
      rw [subFence]
      exact subFenceAux_prepend S hS1 hm0 _ le_rfl
    simp only [extract_text_response]
    rw [hsub]
    have hkeep : (splitLines S).filter (fun line =>
        if (pyStrip line).head? = some lbrace ∧ (pyStrip line).getLast? = some rbrace
        then
          match jsonParse (pyStrip line) with
          | some _ => false
          | none => true
        else true) = splitLines S := by
      apply List.filter_eq_self.mpr
      intro line hline
      rw [if_neg (fun hcond => hS2 line hline hcond.1)]
    rw [hkeep, joinLines_splitLines]

/-- Claim C6 counterexample: on a response with two distinct fenced JSON
blocks, extraction returns the object of the *first* block, not the last one
the claim designates. -/
theorem claim6_counterexample :
    extract_json_signal twoBlockResponse =
      some (Json.obj [(chars "a", Json.num (chars "1"))])
    ∧ jsonParse (chars "\x7b\"b\": 2\x7d") =
      some (Json.obj [(chars "b", Json.num (chars "2"))])
    ∧ Json.obj [(chars "a", Json.num (chars "1"))] ≠
      Json.obj [(chars "b", Json.num (chars "2"))] := by
  refine ⟨by rfl, by rfl, ?_⟩
  intro h
  injection h with h1
  injection h1 with h2 h3
  injection h2 with h4 h5
  exact absurd h4 (by decide)

/-- Claim C6 witness: the amended theorem applied to a concrete well-formed
response. -/
theorem claim6_witness :
    (∀ c ∈ spokenS, c ≠ btick)
    ∧ extract_json_signal
        (spokenS ++ fencedJson (lbrace :: (greetedMid ++ [rbrace])) ++ []) =
      some (Json.obj [(chars "intent", Json.str (chars "greeted"))])
    ∧ extract_text_response
        (spokenS ++ fencedJson (lbrace :: (greetedMid ++ [rbrace]))) =
      pyStrip spokenS :=
  have h := claim6_first_fence_extraction spokenS greetedMid []
    [(chars "intent", Json.str (chars "greeted"))]
    (by decide) (by decide) (by decide) (by rfl)
  ⟨by decide, h.1, h.2⟩

end VoiceScheduler
